import Mathlib

/-!
# Verification of `arc` (harsh-2711/arc)

Shallow embedding of `cmd/arc/main.go` (plugin ordering, mount loop, env-file
parser) and of `plugins/users/dao.go` (`patchUser`).

Conventions of the embedding:

* a Go `string` holding valid UTF-8 text is a Lean `String` (plugin names) or a
  `List Char` (env-file text); Go compares strings byte-wise, which on valid
  UTF-8 coincides with the code-point order used here;
* a Go function returning `(value, error)` returns a pair of options;
* `log.Fatalf` ends the run: the outcome of `main` records whether the serve
  step was reached.
-/

namespace Arc

/-! ## Plugins and the order policy (`cmd/arc/main.go`, lines 67-77) -/

/-- Modelled from the spec: the `Route` of §3 (declared in the `arc` package, which
is not among the sources): an HTTP verb, a path pattern and a reference to the
handler, here a label. -/
structure Route where
  method : String
  pathPattern : String
  handler : String
deriving DecidableEq, Repr

/-- Modelled from the spec: the `plugin.Plugin` interface (package `arc/plugin`, not
among the sources), the PluginUnit of §3 and §4.1. `Name` and `Routes` are the
two declared operations; `InitFunc` is the outcome, in the run under study, of
the optional mount-time initialisation: `none` on success, `some cause` when the
unit vetoes startup. -/
structure Plugin where
  Name : String
  Routes : List Route
  InitFunc : Option String
deriving DecidableEq, Repr

/-- The closure `criteria` of `main` (lines 68-76). Go's `<` on strings is the
lexicographic comparison of their character sequences. -/
def criteria (p1 p2 : Plugin) : Bool :=
  if p1.Name = "es" then
    false
  else if p2.Name = "es" then
    true
  else
    decide (p1.Name.toList < p2.Name.toList)

/-- Modelled from the spec: the insertion step of the generic "sort by" routine
behind `arc.By(criteria).Sort` (package `arc`, not among the sources): `a` is put
in front of the first element that is not `less` than it. -/
def orderedInsert {α : Type} (less : α → α → Bool) (a : α) : List α → List α
  | [] => [a]
  | b :: l => if less b a then b :: orderedInsert less a l else a :: b :: l

/-- Modelled from the spec: `arc.By(less).Sort(plugins)` (package `arc`, not among
the sources). §4.3 and §9 ask for a genuine, stable sort driven by an injectable
two-argument predicate; this is the stable insertion sort by `less`. -/
def By.Sort {α : Type} (less : α → α → Bool) : List α → List α
  | [] => []
  | a :: l => orderedInsert less a (By.Sort less l)

/-! ## The mount loop (`cmd/arc/main.go`, lines 79-92) -/

/-- Modelled from the spec: the `InitializationError` of §4.1 and §7 (raised inside
`arc.LoadPlugin`, not among the sources): it carries the unit's name and the
underlying cause. -/
structure InitializationError where
  name : String
  cause : String
deriving DecidableEq, Repr

/-- The `*mux.Router` as the mount pipeline sees it: the routes registered so
far, earliest first. -/
abbrev Router := List Route

/-- Modelled from the spec: the router operation `AddRoute(method, pathPattern,
handler)` of §6 (the router is an external library): the route is appended to
the registered ones. -/
def Router.AddRoute (router : Router) (r : Route) : Router :=
  router ++ [r]

/-- Modelled from the spec: the router's matching of §6, "first registered matching
pattern wins" (the router is an external library). What a single pattern matches
is left to `matchRoute`. -/
def Router.dispatch {Request : Type} (matchRoute : Route → Request → Bool)
    (router : Router) (req : Request) : Option Route :=
  router.find? (fun r => matchRoute r req)

/-- Modelled from the spec: `arc.LoadPlugin(router, p)` (package `arc`, not among the
sources), the mount step of §4.4: it (a) performs the unit-local initialisation,
failing with an `InitializationError` that names the unit, and (b) registers each
declared route on the shared router in the declared order. The router is
returned with the error because the Go function mutates it in place. -/
def LoadPlugin (router : Router) (p : Plugin) : Router × Option InitializationError :=
  match p.InitFunc with
  | some cause => (router, some { name := p.Name, cause := cause })
  | none => (p.Routes.foldl Router.AddRoute router, none)

/-- What a run of the mount loop has done: the router, and the plugins
`LoadPlugin` has been applied to, in call order. -/
structure RunState where
  router : Router
  loaded : List Plugin
deriving DecidableEq, Repr

/-- The loop of `main` (lines 80-84): `LoadPlugin` is applied to the plugins in
turn; the first error ends the loop. -/
def mountLoop : List Plugin → RunState → RunState × Option InitializationError
  | [], st => (st, none)
  | p :: rest, st =>
    match LoadPlugin st.router p with
    | (router, some err) => ({ router := router, loaded := st.loaded ++ [p] }, some err)
    | (router, none) => mountLoop rest { router := router, loaded := st.loaded ++ [p] }

/-- How a run of `main` ends: `log.Fatalf` with the error of a mount step (the
process exits, line 82), or the serve step `http.ListenAndServe(addr, router)`
(line 92). -/
inductive Outcome where
  | fatal (err : InitializationError) (st : RunState)
  | serve (st : RunState)
deriving DecidableEq, Repr

/-- Lines 67-92 of `main`: `registered` is what `arc.ListPlugins()` returns; it
is sorted by `criteria`, the plugins are mounted on a fresh router, and the
router is served unless a mount step failed. -/
def main (registered : List Plugin) : Outcome :=
  let plugins := By.Sort criteria registered
  match mountLoop plugins { router := [], loaded := [] } with
  | (st, some err) => Outcome.fatal err st
  | (st, none) => Outcome.serve st

/-- A request as far as routing goes: verb and path. -/
structure Request where
  method : String
  path : String
deriving DecidableEq, Repr

/-- Segments of a path or pattern, split at `/`. -/
def segments : List Char → List (List Char)
  | [] => [[]]
  | c :: rest =>
    if c = '/' then [] :: segments rest
    else
      match segments rest with
      | [] => [[c]]
      | s :: ss => (c :: s) :: ss

/-- A pattern segment `{name}` matches any non-empty segment; any other one
matches itself. -/
def segmentMatches (pat seg : List Char) : Bool :=
  if pat.head? = some '{' ∧ pat.getLast? = some '}' then !seg.isEmpty else pat == seg

/-- A sample pattern matcher for the router (the router is an external library):
same verb, same number of segments, each segment matched by its pattern. -/
def patternMatches (r : Route) (req : Request) : Bool :=
  r.method == req.method &&
    (segments r.pathPattern.toList).length == (segments req.path.toList).length &&
    (List.zipWith segmentMatches (segments r.pathPattern.toList) (segments req.path.toList)).all id

/-! ## Go maps -/

/-- A Go `map[K]V` built by assignments: an association list with at most one
entry per key. -/
abbrev GoMap (κ ν : Type) := List (κ × ν)

/-- The assignment `m[k] = v`: an older entry under `k` is replaced. -/
def GoMap.set {κ ν : Type} [DecidableEq κ] (m : GoMap κ ν) (k : κ) (v : ν) : GoMap κ ν :=
  (k, v) :: m.filter (fun e => decide (e.1 ≠ k))

/-- The lookup `m[k]`, `none` when the key is absent. -/
def GoMap.get {κ ν : Type} [DecidableEq κ] (m : GoMap κ ν) (k : κ) : Option ν :=
  (m.find? (fun e => decide (e.1 = k))).map Prod.snd

/-- The keys of the map. -/
def GoMap.keys {κ ν : Type} (m : GoMap κ ν) : List κ :=
  m.map Prod.fst

/-! ## The env-file parser (`cmd/arc/main.go`, lines 120-165)

The text read from the `io.Reader` is a `List Char`; a reader that fails is not
modelled. -/

/-- Go's `unicode.IsSpace`: the code points with the White_Space property. -/
def isSpace (c : Char) : Bool :=
  let n := c.toNat
  (0x09 ≤ n && n ≤ 0x0D) || n == 0x20 || n == 0x85 || n == 0xA0 || n == 0x1680 ||
    (0x2000 ≤ n && n ≤ 0x200A) || n == 0x2028 || n == 0x2029 || n == 0x202F ||
    n == 0x205F || n == 0x3000

/-- Go's `strings.TrimSpace`: leading and trailing white space is removed. -/
def TrimSpace (s : List Char) : List Char :=
  ((s.dropWhile isSpace).reverse.dropWhile isSpace).reverse

/-- Go's `strings.HasPrefix`. -/
def HasPrefix (s pre : List Char) : Bool :=
  pre.isPrefixOf s

/-- The text before and after the first occurrence of the non-empty `sep` in
`s` (Go's `strings.Index` and the two slices taken around it), `none` when `sep`
does not occur. -/
def cut (sep : List Char) : List Char → Option (List Char × List Char)
  | [] => none
  | c :: rest =>
    if sep.isPrefixOf (c :: rest) then some ([], (c :: rest).drop sep.length)
    else
      match cut sep rest with
      | none => none
      | some (before, after) => some (c :: before, after)

/-- Go's `strings.Contains` for a non-empty `substr`. -/
def Contains (s substr : List Char) : Bool :=
  (cut substr s).isSome

/-- Go's `strings.SplitN(s, sep, n)` for a non-empty `sep` and `n ≥ 0`: at most
`n` pieces, the last one being the unsplit remainder. -/
def SplitN (s sep : List Char) : Nat → List (List Char)
  | 0 => []
  | 1 => [s]
  | n + 2 =>
    match cut sep s with
    | none => [s]
    | some (before, after) => before :: SplitN after sep (n + 1)

/-- The lines of the text as `bufio.ScanLines` delimits them, before the
carriage return is dropped: each line ends at a `\n` or at the end of the text,
and an empty last line is not a line. -/
def splitLines : List Char → List (List Char)
  | [] => []
  | c :: rest =>
    if c = '\n' then [] :: splitLines rest
    else
      match splitLines rest with
      | [] => [[c]]
      | l :: ls => (c :: l) :: ls

/-- The `dropCR` of `bufio.ScanLines`: a terminal `\r` is dropped. -/
def dropCR (data : List Char) : List Char :=
  if data.getLast? = some '\r' then data.dropLast else data

/-- Go's `bufio.MaxScanTokenSize`, the size of the scanner's buffer. -/
def MaxScanTokenSize : Nat := 64 * 1024

/-- Length in bytes of the UTF-8 encoding. -/
def byteLen (s : List Char) : Nat :=
  (s.map Char.utf8Size).sum

/-- What `scanner.Scan()`/`scanner.Text()` deliver for the given lines: the
tokens up to the first line that does not fit the buffer, and whether the scan
ended on such a line (`scanner.Err()` is then `bufio.ErrTooLong`). -/
def scanTokens : List (List Char) → List (List Char) × Bool
  | [] => ([], false)
  | l :: ls =>
    if MaxScanTokenSize ≤ byteLen l then ([], true)
    else ((dropCR l) :: (scanTokens ls).1, (scanTokens ls).2)

/-- The errors `ParseEnvFile` returns, with the line number that `fmt.Errorf`
prints into the message with `%d`. -/
inductive EnvError where
  /-- Message "can't parse line %d; line should be in KEY=VALUE format" (line 143). -/
  | notKeyValue (lineNumber : Nat)
  /-- Message "can't parse line %d; KEY contains whitespace" (line 148). -/
  | keyWhitespace (lineNumber : Nat)
  /-- Message "can't parse line %d; KEY can't be empty string" (line 155). -/
  | keyEmpty (lineNumber : Nat)
  /-- The error `bufio.ErrTooLong`, returned by `scanner.Err()` (line 160). -/
  | tooLong
deriving DecidableEq, Repr

/-- The line number printed in the message, when there is one. -/
def EnvError.lineNumber? : EnvError → Option Nat
  | .notKeyValue n => some n
  | .keyWhitespace n => some n
  | .keyEmpty n => some n
  | .tooLong => none

/-- The body of the `for scanner.Scan()` loop of `ParseEnvFile` (lines 127-158)
run over the scanned tokens: `lineNumber` and `envMap` are the loop's variables.
An error ends the loop with `(nil, err)`. -/
def parseLoop : List (List Char) → Nat → GoMap (List Char) (List Char) →
    Option (GoMap (List Char) (List Char)) × Option EnvError
  | [], _, envMap => (some envMap, none)
  | text :: rest, lineNumber, envMap =>
    let line := TrimSpace text
    let lineNumber := lineNumber + 1
    if HasPrefix line "#".toList then
      parseLoop rest lineNumber envMap
    else if line.length = 0 then
      parseLoop rest lineNumber envMap
    else
      match SplitN line "=".toList 2 with
      | [key, value] =>
        if Contains key " ".toList then
          (none, some (EnvError.keyWhitespace lineNumber))
        else if key = [] then
          (none, some (EnvError.keyEmpty lineNumber))
        else
          parseLoop rest lineNumber (envMap.set key value)
      | _ => (none, some (EnvError.notKeyValue lineNumber))

/-- `ParseEnvFile` (lines 120-165) on the text the reader delivers: the loop
runs over the scanned lines, then `scanner.Err()` is consulted. -/
def ParseEnvFile (envFile : List Char) :
    Option (GoMap (List Char) (List Char)) × Option EnvError :=
  let scanned := scanTokens (splitLines envFile)
  match parseLoop scanned.1 0 [] with
  | (_, some err) => (none, some err)
  | (envMap, none) =>
    if scanned.2 then (none, some EnvError.tooLong) else (envMap, none)

/-- The lines that make `ParseEnvFile` fail, in the words of its contract (not
taken from the code): the line, trimmed of surrounding white space, is not
empty, does not start with `#`, and either contains no `=`, or has a space in
the text before its first `=`, or has nothing before its first `=`. -/
def malformedLine (text : List Char) : Bool :=
  decide (TrimSpace text ≠ [] ∧ (TrimSpace text).head? ≠ some '#' ∧
    ('=' ∉ TrimSpace text ∨
      ' ' ∈ (TrimSpace text).takeWhile (fun c => decide (c ≠ '=')) ∨
      (TrimSpace text).takeWhile (fun c => decide (c ≠ '=')) = []))

/-! ## `patchUser` (`plugins/users/dao.go`, lines 90-119) -/

/-- The fields of `user.User` that `dao.go` reads. The struct is declared in
`internal/types/user`, which is not among the sources: the types of an ACL
entry, of an operation and of an index entry are parameters, and a slice that may
be `nil` is an `Option (List _)` (`none` is `nil`). -/
structure User (A O I : Type) where
  UserId : String
  ACL : Option (List A)
  Email : String
  Op : O
  Indices : Option (List I)

/-- A value stored in the `map[string]interface{}` of `patchUser`. -/
inductive FieldValue (A O I : Type) where
  | acl (v : List A)
  | email (v : String)
  | op (v : O)
  | indices (v : List I)
deriving DecidableEq

/-- The update request `patchUser` hands to the Elasticsearch client: the
document id and the partial document. -/
structure UpdateRequest (A O I : Type) where
  Id : String
  Doc : GoMap String (FieldValue A O I)

/-- `patchUser` (lines 90-119). `Noop` stands for the constant `op.Noop` (package
`internal/types/op`, not among the sources) and `Do` for the client's answer to
the update request, `some err` on failure. The result is the request issued
together with the Go return values `(bool, error)`. -/
def patchUser {A O I E : Type} [DecidableEq O] (Noop : O)
    (Do : UpdateRequest A O I → Option E) (userId : String) (u : User A O I) :
    UpdateRequest A O I × (Bool × Option E) :=
  let fields : GoMap String (FieldValue A O I) := []
  let fields :=
    match u.ACL with
    | some acl => if acl.length ≥ 0 then fields.set "acl" (FieldValue.acl acl) else fields
    | none => fields
  let fields := if u.Email ≠ "" then fields.set "email" (FieldValue.email u.Email) else fields
  let fields := if u.Op ≠ Noop then fields.set "op" (FieldValue.op u.Op) else fields
  let fields :=
    match u.Indices with
    | some indices =>
      if indices.length ≥ 0 then fields.set "indices" (FieldValue.indices indices) else fields
    | none => fields
  let request : UpdateRequest A O I := { Id := userId, Doc := fields }
  match Do request with
  | some err => (request, (false, some err))
  | none => (request, (true, none))

/-! ### Helper lemmas on `criteria` -/

theorem criteria_eq_true_iff (p q : Plugin) :
    criteria p q = true ↔ p.Name ≠ "es" ∧ (q.Name = "es" ∨ p.Name < q.Name) := by
  unfold criteria
  by_cases hp : p.Name = "es"
  · simp [hp]
  · by_cases hq : q.Name = "es"
    · simp [hp, hq]
    · simp [hp, hq]

theorem criteria_irrefl (p : Plugin) : criteria p p = false := by
  cases h : criteria p p
  · rfl
  · rw [criteria_eq_true_iff] at h
    rcases h with ⟨hne, h | h⟩
    · exact absurd h hne
    · exact absurd h (lt_irrefl _)

theorem criteria_trans {p q r : Plugin} (hpq : criteria p q = true)
    (hqr : criteria q r = true) : criteria p r = true := by
  rw [criteria_eq_true_iff] at *
  obtain ⟨hp, hpq⟩ := hpq
  obtain ⟨hq, hqr⟩ := hqr
  refine ⟨hp, ?_⟩
  rcases hqr with h | h
  · exact Or.inl h
  · rcases hpq with h' | h'
    · exact absurd h' hq
    · exact Or.inr (lt_trans h' h)

theorem criteria_asymm {p q : Plugin} (hpq : criteria p q = true) :
    criteria q p = false := by
  cases h : criteria q p
  · rfl
  · have := criteria_trans hpq h
    rw [criteria_irrefl] at this
    exact absurd this (by simp)

theorem criteria_total {p q : Plugin} (hne : p.Name ≠ q.Name) :
    criteria p q = true ∨ criteria q p = true := by
  rw [criteria_eq_true_iff, criteria_eq_true_iff]
  by_cases hp : p.Name = "es"
  · right
    exact ⟨fun hq => hne (hp.trans hq.symm), Or.inl hp⟩
  · by_cases hq : q.Name = "es"
    · left
      exact ⟨hp, Or.inl hq⟩
    · rcases lt_trichotomy p.Name q.Name with h | h | h
      · exact Or.inl ⟨hp, Or.inr h⟩
      · exact absurd h hne
      · exact Or.inr ⟨hq, Or.inr h⟩

/-- The converse order is transitive: if `b` is not before `a` and `c` is not
before `b`, then `c` is not before `a`. -/
theorem criteria_not_trans {a b c : Plugin} (hab : criteria b a = false)
    (hbc : criteria c b = false) : criteria c a = false := by
  cases h : criteria c a
  · rfl
  · exfalso
    have hcb : ¬ criteria c b = true := by simp [hbc]
    have hba : ¬ criteria b a = true := by simp [hab]
    rw [criteria_eq_true_iff] at h hcb hba
    obtain ⟨hc, hca⟩ := h
    have hb : b.Name ≠ "es" := fun hb => hcb ⟨hc, Or.inl hb⟩
    have ha : a.Name ≠ "es" := fun ha => hba ⟨hb, Or.inl ha⟩
    have h1 : ¬ c.Name < b.Name := fun hlt => hcb ⟨hc, Or.inr hlt⟩
    have h2 : ¬ b.Name < a.Name := fun hlt => hba ⟨hb, Or.inr hlt⟩
    rcases hca with h3 | h3
    · exact ha h3
    · exact absurd (lt_of_lt_of_le h3 (le_trans (not_lt.mp h2) (not_lt.mp h1))) (lt_irrefl _)

/-! ### Helper lemmas on the sort -/

theorem orderedInsert_perm {α : Type} (less : α → α → Bool) (a : α) (l : List α) :
    (orderedInsert less a l).Perm (a :: l) := by
  induction l with
  | nil => exact List.Perm.refl _
  | cons b l ih =>
    unfold orderedInsert
    split
    · exact ((List.Perm.cons b ih).trans (List.Perm.swap a b l))
    · exact List.Perm.refl _

theorem sort_perm {α : Type} (less : α → α → Bool) (l : List α) :
    (By.Sort less l).Perm l := by
  induction l with
  | nil => exact List.Perm.refl _
  | cons a l ih =>
    unfold By.Sort
    exact (orderedInsert_perm less a _).trans (List.Perm.cons a ih)

/-- Inserting into a list sorted for "not after" keeps it sorted. -/
theorem orderedInsert_sorted (a : Plugin) (l : List Plugin)
    (h : l.Pairwise (fun x y => criteria y x = false)) :
    (orderedInsert criteria a l).Pairwise (fun x y => criteria y x = false) := by
  induction l with
  | nil => simp [orderedInsert]
  | cons b l ih =>
    rw [List.pairwise_cons] at h
    unfold orderedInsert
    split
    · rename_i hba
      rw [List.pairwise_cons]
      refine ⟨?_, ih h.2⟩
      intro x hx
      rcases List.mem_cons.mp ((orderedInsert_perm criteria a l).mem_iff.mp hx) with hx | hx
      · rw [hx]
        exact criteria_asymm hba
      · exact h.1 x hx
    · rename_i hba
      have hba : criteria b a = false := by simpa using hba
      rw [List.pairwise_cons]
      refine ⟨?_, List.pairwise_cons.mpr h⟩
      intro x hx
      rcases List.mem_cons.mp hx with hx | hx
      · rw [hx]; exact hba
      · exact criteria_not_trans hba (h.1 x hx)

/-- The sorted list never has a plugin after one it is `criteria`-less than. -/
theorem sort_sorted (l : List Plugin) :
    (By.Sort criteria l).Pairwise (fun x y => criteria y x = false) := by
  induction l with
  | nil => simp [By.Sort]
  | cons a l ih =>
    unfold By.Sort
    exact orderedInsert_sorted a _ ih

/-- With pairwise-distinct names the sorted list is strictly ascending. -/
theorem sort_strict_sorted (l : List Plugin) (hnd : (l.map Plugin.Name).Nodup) :
    (By.Sort criteria l).Pairwise (fun x y => criteria x y = true) := by
  have hperm := sort_perm criteria l
  have hnd' : ((By.Sort criteria l).map Plugin.Name).Nodup :=
    (hperm.map Plugin.Name).nodup_iff.mpr hnd
  have hne : (By.Sort criteria l).Pairwise (fun x y => x.Name ≠ y.Name) :=
    (List.pairwise_map.mp hnd')
  refine ((sort_sorted l).and hne).imp ?_
  intro x y hxy
  rcases criteria_total hxy.2 with h | h
  · exact h
  · rw [hxy.1] at h
    exact absurd h (by simp)

/-- A sorted list is its plugins not named "es" followed by those named "es". -/
theorem sorted_eq_filter_append (l : List Plugin)
    (h : l.Pairwise (fun x y => criteria y x = false)) :
    l = l.filter (fun p => decide (p.Name ≠ "es")) ++ l.filter (fun p => decide (p.Name = "es")) := by
  induction l with
  | nil => rfl
  | cons a t ih =>
    rw [List.pairwise_cons] at h
    by_cases ha : a.Name = "es"
    · have hall : ∀ y ∈ t, y.Name = "es" := by
        intro y hy
        by_contra hne
        have : criteria y a = true := (criteria_eq_true_iff y a).mpr ⟨hne, Or.inl ha⟩
        rw [h.1 y hy] at this
        exact absurd this (by simp)
      have h1 : t.filter (fun p => decide (p.Name ≠ "es")) = [] := by
        rw [List.filter_eq_nil_iff]
        intro y hy
        simp [hall y hy]
      have h2 : t.filter (fun p => decide (p.Name = "es")) = t := by
        rw [List.filter_eq_self]
        intro y hy
        simp [hall y hy]
      rw [List.filter_cons, List.filter_cons, h1, h2]
      simp [ha]
    · have hrec := ih h.2
      rw [List.filter_cons, List.filter_cons]
      simp only [ne_eq, ha, not_false_eq_true, decide_True, decide_False, if_true,
        List.cons_append, Bool.false_eq_true, if_false]
      simp only [ne_eq] at hrec
      rw [← hrec]

/-! ### Helper lemmas on the mount loop -/

theorem foldl_AddRoute (routes : List Route) (router : Router) :
    routes.foldl Router.AddRoute router = router ++ routes := by
  induction routes generalizing router with
  | nil => simp
  | cons r rs ih => rw [List.foldl_cons, ih]; simp [Router.AddRoute]

theorem LoadPlugin_of_init_none (router : Router) (p : Plugin) (h : p.InitFunc = none) :
    LoadPlugin router p = (router ++ p.Routes, none) := by
  unfold LoadPlugin
  rw [h]
  simp [foldl_AddRoute]

theorem LoadPlugin_of_init_some (router : Router) (p : Plugin) (cause : String)
    (h : p.InitFunc = some cause) :
    LoadPlugin router p = (router, some { name := p.Name, cause := cause }) := by
  unfold LoadPlugin
  rw [h]

theorem LoadPlugin_snd_eq_none_iff (router : Router) (p : Plugin) :
    (LoadPlugin router p).2 = none ↔ p.InitFunc = none := by
  cases h : p.InitFunc with
  | none => simp [LoadPlugin_of_init_none router p h]
  | some c => simp [LoadPlugin_of_init_some router p c h]

/-- When every initialisation succeeds the loop mounts every plugin in turn. -/
theorem mountLoop_of_all_ok (ps : List Plugin) (st : RunState)
    (hok : ∀ p ∈ ps, p.InitFunc = none) :
    mountLoop ps st =
      ({ router := st.router ++ (ps.map Plugin.Routes).flatten, loaded := st.loaded ++ ps },
        none) := by
  induction ps generalizing st with
  | nil => simp [mountLoop]
  | cons p rest ih =>
    have hp := hok p (List.mem_cons_self p rest)
    unfold mountLoop
    rw [LoadPlugin_of_init_none st.router p hp]
    simp only
    rw [ih _ (fun q hq => hok q (List.mem_cons_of_mem p hq))]
    simp

/-- The loop stops at the first plugin whose initialisation fails. -/
theorem mountLoop_of_first_failure (pre post : List Plugin) (p : Plugin) (cause : String)
    (st : RunState) (hpre : ∀ q ∈ pre, q.InitFunc = none) (hp : p.InitFunc = some cause) :
    mountLoop (pre ++ p :: post) st =
      ({ router := st.router ++ (pre.map Plugin.Routes).flatten,
         loaded := st.loaded ++ pre ++ [p] },
        some { name := p.Name, cause := cause }) := by
  induction pre generalizing st with
  | nil =>
    simp only [List.nil_append, List.map_nil, List.flatten_nil, List.append_nil]
    unfold mountLoop
    rw [LoadPlugin_of_init_some st.router p cause hp]
  | cons q rest ih =>
    have hq := hpre q (List.mem_cons_self q rest)
    rw [List.cons_append]
    unfold mountLoop
    rw [LoadPlugin_of_init_none st.router q hq]
    simp only
    rw [ih _ (fun x hx => hpre x (List.mem_cons_of_mem q hx))]
    simp

/-- A loop that ends without error has initialised every plugin. -/
theorem all_ok_of_mountLoop (ps : List Plugin) (st : RunState)
    (h : (mountLoop ps st).2 = none) : ∀ p ∈ ps, p.InitFunc = none := by
  induction ps generalizing st with
  | nil => intro p hp; exact absurd hp (List.not_mem_nil _)
  | cons q rest ih =>
    unfold mountLoop at h
    cases hq : q.InitFunc with
    | some c =>
      rw [LoadPlugin_of_init_some st.router q c hq] at h
      simp at h
    | none =>
      rw [LoadPlugin_of_init_none st.router q hq] at h
      simp only at h
      intro p hp
      rcases List.mem_cons.mp hp with hp | hp
      · rw [hp]; exact hq
      · exact ih _ h p hp

/-! ### Helper lemmas on the env-file parser -/

theorem HasPrefix_hash (line : List Char) :
    HasPrefix line "#".toList = true ↔ line.head? = some '#' := by
  show HasPrefix line ['#'] = true ↔ _
  cases line with
  | nil => simp [HasPrefix, List.isPrefixOf]
  | cons c rest =>
    simp only [HasPrefix, List.isPrefixOf, List.head?_cons, Option.some.injEq,
      Bool.and_true, beq_iff_eq]
    exact eq_comm

/-- Cutting at a one-character separator: the text before its first occurrence
and the text after it. -/
theorem cut_singleton (c : Char) (s : List Char) :
    cut [c] s =
      if c ∈ s then
        some (s.takeWhile (fun d => decide (d ≠ c)), (s.dropWhile (fun d => decide (d ≠ c))).tail)
      else none := by
  induction s with
  | nil => simp [cut]
  | cons d rest ih =>
    unfold cut
    by_cases hcd : c = d
    · subst hcd
      simp [List.isPrefixOf]
    · have hdc : d ≠ c := fun h => hcd h.symm
      rw [ih]
      by_cases hmem : c ∈ rest
      · simp [List.isPrefixOf, hcd, hdc, hmem, List.takeWhile_cons, List.dropWhile_cons]
      · simp [List.isPrefixOf, hcd, hdc, hmem]

theorem Contains_space (key : List Char) :
    Contains key " ".toList = true ↔ ' ' ∈ key := by
  show Contains key [' '] = true ↔ _
  unfold Contains
  rw [cut_singleton]
  by_cases h : ' ' ∈ key <;> simp [h]

/-- The two fields `SplitN(line, "=", 2)` yields when the line has a `=`, the
single one when it has none. -/
theorem SplitN_eq_two (line : List Char) :
    SplitN line "=".toList 2 =
      if '=' ∈ line then
        [line.takeWhile (fun d => decide (d ≠ '=')),
          (line.dropWhile (fun d => decide (d ≠ '='))).tail]
      else [line] := by
  show SplitN line ['='] 2 = _
  rw [SplitN, cut_singleton]
  by_cases hmem : '=' ∈ line
  · simp only [hmem, if_true]
    rw [SplitN]
  · simp only [hmem, if_false]

/-- One turn of the loop, as the body of `parseLoop` spells it. -/
theorem parseLoop_cons (text : List Char) (rest : List (List Char)) (n : Nat)
    (m : GoMap (List Char) (List Char)) :
    parseLoop (text :: rest) n m =
      if HasPrefix (TrimSpace text) "#".toList = true then parseLoop rest (n + 1) m
      else if (TrimSpace text).length = 0 then parseLoop rest (n + 1) m
      else
        match SplitN (TrimSpace text) "=".toList 2 with
        | [key, value] =>
          if Contains key " ".toList = true then (none, some (EnvError.keyWhitespace (n + 1)))
          else if key = [] then (none, some (EnvError.keyEmpty (n + 1)))
          else parseLoop rest (n + 1) (m.set key value)
        | _ => (none, some (EnvError.notKeyValue (n + 1))) := by
  rw [parseLoop]

/-- One turn of the loop on a malformed line: the loop ends with an error that
carries the number of that line. -/
theorem parseLoop_cons_of_malformed (text : List Char) (rest : List (List Char)) (n : Nat)
    (m : GoMap (List Char) (List Char)) (h : malformedLine text = true) :
    ∃ err, parseLoop (text :: rest) n m = (none, some err) ∧ err.lineNumber? = some (n + 1) := by
  unfold malformedLine at h
  rw [decide_eq_true_iff] at h
  obtain ⟨hne, hhash, hbad⟩ := h
  have hpre : ¬ HasPrefix (TrimSpace text) "#".toList = true := by
    rw [HasPrefix_hash]; exact hhash
  have hlen : ¬ (TrimSpace text).length = 0 := by
    rw [List.length_eq_zero]; exact hne
  rw [parseLoop_cons, if_neg hpre, if_neg hlen, SplitN_eq_two]
  by_cases hmem : '=' ∈ TrimSpace text
  · rw [if_pos hmem]
    simp only
    rcases hbad with h | h | h
    · exact absurd hmem h
    · rw [if_pos ((Contains_space _).mpr h)]
      exact ⟨_, rfl, rfl⟩
    · by_cases hc : Contains (List.takeWhile (fun d => decide (d ≠ '=')) (TrimSpace text))
          " ".toList = true
      · rw [if_pos hc]
        exact ⟨_, rfl, rfl⟩
      · rw [if_neg hc, if_pos h]
        exact ⟨_, rfl, rfl⟩
  · rw [if_neg hmem]
    exact ⟨_, rfl, rfl⟩

/-- One turn of the loop on a line that is not malformed: the loop goes on with
the next line number. -/
theorem parseLoop_cons_of_not_malformed (text : List Char) (rest : List (List Char)) (n : Nat)
    (m : GoMap (List Char) (List Char)) (h : malformedLine text = false) :
    ∃ m', parseLoop (text :: rest) n m = parseLoop rest (n + 1) m' := by
  unfold malformedLine at h
  rw [decide_eq_false_iff_not] at h
  rw [parseLoop_cons]
  by_cases hpre : HasPrefix (TrimSpace text) "#".toList = true
  · rw [if_pos hpre]
    exact ⟨m, rfl⟩
  · by_cases hlen : (TrimSpace text).length = 0
    · rw [if_neg hpre, if_pos hlen]
      exact ⟨m, rfl⟩
    · rw [if_neg hpre, if_neg hlen]
      have hne : TrimSpace text ≠ [] := fun h0 => hlen (List.length_eq_zero.mpr h0)
      have hhash : (TrimSpace text).head? ≠ some '#' := fun h0 => hpre ((HasPrefix_hash _).mpr h0)
      have hgood : ¬ ('=' ∉ TrimSpace text ∨
          ' ' ∈ (TrimSpace text).takeWhile (fun c => decide (c ≠ '=')) ∨
          (TrimSpace text).takeWhile (fun c => decide (c ≠ '=')) = []) :=
        fun hb => h ⟨hne, hhash, hb⟩
      rw [not_or, not_or, not_not] at hgood
      obtain ⟨hmem, hspace, hkey⟩ := hgood
      have hc : ¬ Contains (List.takeWhile (fun d => decide (d ≠ '=')) (TrimSpace text))
          " ".toList = true := fun hc => hspace ((Contains_space _).mp hc)
      rw [SplitN_eq_two, if_pos hmem]
      simp only
      rw [if_neg hc, if_neg hkey]
      exact ⟨_, rfl⟩

/-- The loop over lines none of which is malformed ends without error, with a
map. -/
theorem parseLoop_of_none_malformed (tokens : List (List Char)) (n : Nat)
    (m : GoMap (List Char) (List Char)) (h : ∀ t ∈ tokens, malformedLine t = false) :
    ∃ m', parseLoop tokens n m = (some m', none) := by
  induction tokens generalizing n m with
  | nil => exact ⟨m, rfl⟩
  | cons t rest ih =>
    obtain ⟨m₁, hstep⟩ :=
      parseLoop_cons_of_not_malformed t rest n m (h t (List.mem_cons_self t rest))
    rw [hstep]
    exact ih (n + 1) m₁ (fun x hx => h x (List.mem_cons_of_mem t hx))

/-- The loop over lines the first malformed of which has `good` lines before it
ends with an error carrying that line's number. -/
theorem parseLoop_of_first_malformed (good : List (List Char)) (bad : List Char)
    (rest : List (List Char)) (n : Nat) (m : GoMap (List Char) (List Char))
    (hgood : ∀ t ∈ good, malformedLine t = false) (hbad : malformedLine bad = true) :
    ∃ err, parseLoop (good ++ bad :: rest) n m = (none, some err) ∧
      err.lineNumber? = some (n + good.length + 1) := by
  induction good generalizing n m with
  | nil =>
    obtain ⟨err, h1, h2⟩ := parseLoop_cons_of_malformed bad rest n m hbad
    exact ⟨err, h1, by simpa using h2⟩
  | cons t ts ih =>
    obtain ⟨m₁, hstep⟩ :=
      parseLoop_cons_of_not_malformed t (ts ++ bad :: rest) n m
        (hgood t (List.mem_cons_self t ts))
    rw [List.cons_append, hstep]
    obtain ⟨err, h1, h2⟩ := ih (n + 1) m₁ (fun x hx => hgood x (List.mem_cons_of_mem t hx))
    refine ⟨err, h1, ?_⟩
    rw [h2, List.length_cons]
    congr 1
    omega

/-- A list of lines either has no malformed line or splits at its first one. -/
theorem first_malformed_split (tokens : List (List Char)) :
    (∀ t ∈ tokens, malformedLine t = false) ∨
    ∃ good bad rest, tokens = good ++ bad :: rest ∧
      (∀ t ∈ good, malformedLine t = false) ∧ malformedLine bad = true := by
  induction tokens with
  | nil => exact Or.inl (fun t ht => absurd ht (List.not_mem_nil t))
  | cons t ts ih =>
    cases ht : malformedLine t with
    | true => exact Or.inr ⟨[], t, ts, rfl, fun x hx => absurd hx (List.not_mem_nil x), ht⟩
    | false =>
      rcases ih with h | ⟨good, bad, rest, heq, hgood, hbad⟩
      · left
        intro x hx
        rcases List.mem_cons.mp hx with hx | hx
        · rw [hx]; exact ht
        · exact h x hx
      · right
        refine ⟨t :: good, bad, rest, by rw [heq]; rfl, ?_, hbad⟩
        intro x hx
        rcases List.mem_cons.mp hx with hx | hx
        · rw [hx]; exact ht
        · exact hgood x hx

/-- When every line fits the buffer the scanner delivers every line and ends
without error. -/
theorem scanTokens_of_fit (lines : List (List Char))
    (hfit : ∀ l ∈ lines, byteLen l < MaxScanTokenSize) :
    scanTokens lines = (lines.map dropCR, false) := by
  induction lines with
  | nil => rfl
  | cons l ls ih =>
    have hl : ¬ MaxScanTokenSize ≤ byteLen l := not_le.mpr (hfit l (List.mem_cons_self l ls))
    unfold scanTokens
    rw [if_neg hl, ih (fun x hx => hfit x (List.mem_cons_of_mem l hx))]
    rfl

/-! ## Theorems -/


/-- C1: for every list of plugins with pairwise-distinct names that contains
exactly one plugin named "es", sorting it with `criteria` yields a permutation of
the input whose last element is the "es" plugin and whose other elements come in
strictly ascending order of name. -/
theorem sort_places_es_last (ps : List Plugin) (hnd : (ps.map Plugin.Name).Nodup)
    (hes : (ps.map Plugin.Name).count "es" = 1) :
    (By.Sort criteria ps).Perm ps ∧
    (By.Sort criteria ps).getLast?.map Plugin.Name = some "es" ∧
    (∀ p ∈ (By.Sort criteria ps).dropLast, p.Name ≠ "es") ∧
    ((By.Sort criteria ps).dropLast.map Plugin.Name).Pairwise (fun a b => a < b) := by
  have hperm := sort_perm criteria ps
  have hsorted := sort_strict_sorted ps hnd
  have hmem : "es" ∈ ps.map Plugin.Name := by
    apply List.count_pos_iff.mp
    omega
  obtain ⟨e, he, hename⟩ := List.mem_map.mp hmem
  have he' : e ∈ By.Sort criteria ps := hperm.mem_iff.mpr he
  rcases List.eq_nil_or_concat (By.Sort criteria ps) with hnil | ⟨init, z, hz⟩
  · rw [hnil] at he'
    exact absurd he' (List.not_mem_nil _)
  · rw [List.concat_eq_append] at hz
    rw [hz] at hsorted he'
    rw [hz]
    rw [List.pairwise_append] at hsorted
    obtain ⟨hinit, -, hcross⟩ := hsorted
    have hzname : z.Name = "es" := by
      rcases List.mem_append.mp he' with h | h
      · have := hcross e h z (List.mem_singleton_self z)
        rw [criteria_eq_true_iff] at this
        exact absurd hename this.1
      · rw [List.mem_singleton.mp h] at hename
        exact hename
    have hinitne : ∀ p ∈ init, p.Name ≠ "es" := by
      intro p hp
      have := hcross p hp z (List.mem_singleton_self z)
      rw [criteria_eq_true_iff] at this
      exact this.1
    refine ⟨by rw [← hz]; exact hperm, ?_, ?_, ?_⟩
    · simp [hzname]
    · simpa using hinitne
    · rw [List.dropLast_concat, List.pairwise_map]
      refine hinit.imp_of_mem ?_
      intro a b ha hb hab
      rw [criteria_eq_true_iff] at hab
      rcases hab.2 with h | h
      · exact absurd h (hinitne b hb)
      · exact h

/-- Witness of C1: the four plugins of the spec's scenario, registered as auth,
users, permissions, es, are sorted to auth, permissions, users, es. -/
theorem sort_places_es_last_witness :
    By.Sort criteria
        [⟨"auth", [], none⟩, ⟨"users", [], none⟩, ⟨"permissions", [], none⟩, ⟨"es", [], none⟩] =
      [⟨"auth", [], none⟩, ⟨"permissions", [], none⟩, ⟨"users", [], none⟩, ⟨"es", [], none⟩] ∧
    (By.Sort criteria
        [⟨"auth", [], none⟩, ⟨"users", [], none⟩, ⟨"permissions", [], none⟩,
          ⟨"es", [], none⟩]).getLast?.map Plugin.Name = some "es" :=
  ⟨by decide,
    (sort_places_es_last
      [⟨"auth", [], none⟩, ⟨"users", [], none⟩, ⟨"permissions", [], none⟩, ⟨"es", [], none⟩]
      (by decide) (by decide)).2.1⟩

/-- C3: the mount order does not depend on the order in which the registry lists
the plugins: two listings of the same plugins with pairwise-distinct names are
sorted to the same list, and the two runs of `main` are identical (same calls of
`LoadPlugin` in the same order, same router, same outcome). -/
theorem mount_order_independent_of_listing (ps₁ ps₂ : List Plugin) (hperm : ps₁.Perm ps₂)
    (hnd : (ps₁.map Plugin.Name).Nodup) :
    By.Sort criteria ps₁ = By.Sort criteria ps₂ ∧ main ps₁ = main ps₂ := by
  have hnd₂ : (ps₂.map Plugin.Name).Nodup := (hperm.map Plugin.Name).nodup_iff.mp hnd
  have h₁ := sort_strict_sorted ps₁ hnd
  have h₂ := sort_strict_sorted ps₂ hnd₂
  have hp : (By.Sort criteria ps₁).Perm (By.Sort criteria ps₂) :=
    ((sort_perm criteria ps₁).trans hperm).trans (sort_perm criteria ps₂).symm
  haveI : IsAntisymm Plugin (fun x y => criteria x y = true) :=
    ⟨fun a b hab hba => by rw [criteria_asymm hab] at hba; exact absurd hba (by simp)⟩
  have heq : By.Sort criteria ps₁ = By.Sort criteria ps₂ := List.eq_of_perm_of_sorted hp h₁ h₂
  exact ⟨heq, by unfold main; rw [heq]⟩

/-- Witness of C3: two listings of the four plugins of the spec's scenario. -/
theorem mount_order_independent_of_listing_witness :
    main [⟨"auth", [], none⟩, ⟨"users", [], none⟩, ⟨"permissions", [], none⟩, ⟨"es", [], none⟩] =
      main [⟨"es", [], none⟩, ⟨"permissions", [], none⟩, ⟨"auth", [], none⟩, ⟨"users", [], none⟩] :=
  (mount_order_independent_of_listing
    [⟨"auth", [], none⟩, ⟨"users", [], none⟩, ⟨"permissions", [], none⟩, ⟨"es", [], none⟩]
    [⟨"es", [], none⟩, ⟨"permissions", [], none⟩, ⟨"auth", [], none⟩, ⟨"users", [], none⟩]
    (by decide) (by decide)).2

/-- C2: `criteria` is a strict total order on plugin names with "es" as its
greatest element: it is irreflexive and transitive, of two plugins with distinct
names exactly one is `criteria`-less than the other, the plugin named "es" is
less than nothing, and every plugin with another name is less than it. -/
theorem criteria_strict_total_order :
    (∀ a : Plugin, criteria a a = false) ∧
    (∀ a b c : Plugin, criteria a b = true → criteria b c = true → criteria a c = true) ∧
    (∀ a b : Plugin, a.Name ≠ b.Name →
      (criteria a b = true ∧ criteria b a = false) ∨
      (criteria a b = false ∧ criteria b a = true)) ∧
    (∀ a b : Plugin, a.Name = "es" → criteria a b = false) ∧
    (∀ a b : Plugin, b.Name = "es" → a.Name ≠ "es" → criteria a b = true) := by
  refine ⟨criteria_irrefl, fun a b c => criteria_trans, ?_, ?_, ?_⟩
  · intro a b hne
    rcases criteria_total hne with h | h
    · exact Or.inl ⟨h, criteria_asymm h⟩
    · exact Or.inr ⟨criteria_asymm h, h⟩
  · intro a b ha
    simp [criteria, ha]
  · intro a b hb ha
    simp [criteria, ha, hb]

/-- Witness of C2: the comparisons among "auth", "users" and "es". -/
theorem criteria_strict_total_order_witness :
    criteria ⟨"auth", [], none⟩ ⟨"users", [], none⟩ = true ∧
    criteria ⟨"users", [], none⟩ ⟨"auth", [], none⟩ = false ∧
    criteria ⟨"auth", [], none⟩ ⟨"es", [], none⟩ = true :=
  ⟨by decide,
    ((criteria_strict_total_order.2.2.1 ⟨"auth", [], none⟩ ⟨"users", [], none⟩ (by decide)).resolve_right
      (by decide)).2,
    criteria_strict_total_order.2.1 ⟨"auth", [], none⟩ ⟨"users", [], none⟩ ⟨"es", [], none⟩
      (by decide) (by decide)⟩

/-- C4: the mount loop is fail-fast. If, in the sorted list, `p` is the first
plugin whose `LoadPlugin` returns an error (every plugin of `pre` before it
mounts without error), then the run ends in `log.Fatalf` with exactly that error,
which names `p`; `LoadPlugin` has been applied to the plugins of `pre` and to `p`
and to none of `post`; the router holds the routes of `pre` and nothing else; and
the serve step is not reached. -/
theorem mount_fail_fast (registered pre post : List Plugin) (p : Plugin)
    (err : InitializationError)
    (hsort : By.Sort criteria registered = pre ++ p :: post)
    (hpre : ∀ q ∈ pre, ∀ router, (LoadPlugin router q).2 = none)
    (hp : (LoadPlugin (pre.map Plugin.Routes).flatten p).2 = some err) :
    main registered =
      Outcome.fatal err
        { router := (pre.map Plugin.Routes).flatten, loaded := pre ++ [p] } ∧
    err.name = p.Name ∧
    ∀ st, main registered ≠ Outcome.serve st := by
  have hpre' : ∀ q ∈ pre, q.InitFunc = none :=
    fun q hq => (LoadPlugin_snd_eq_none_iff [] q).mp (hpre q hq [])
  cases hinit : p.InitFunc with
  | none =>
    rw [LoadPlugin_of_init_none _ p hinit] at hp
    simp at hp
  | some cause =>
    rw [LoadPlugin_of_init_some _ p cause hinit] at hp
    simp only [Option.some.injEq] at hp
    have hmain : main registered =
        Outcome.fatal err
          { router := (pre.map Plugin.Routes).flatten, loaded := pre ++ [p] } := by
      unfold main
      simp only [hsort]
      rw [mountLoop_of_first_failure pre post p cause _ hpre' hinit]
      simp [hp]
    refine ⟨hmain, ?_, ?_⟩
    · rw [← hp]
    · intro st hst
      rw [hmain] at hst
      exact Outcome.noConfusion hst

/-- Witness of C4: "permissions" fails to initialise; "auth" is mounted before
it, "users" and "es" are not reached. -/
theorem mount_fail_fast_witness :
    main
        [⟨"auth", [⟨"GET", "/_health", "auth.health"⟩], none⟩,
          ⟨"users", [⟨"GET", "/_user", "users.get"⟩], none⟩,
          ⟨"permissions", [⟨"GET", "/_permission", "permissions.get"⟩], some "no backing store"⟩,
          ⟨"es", [⟨"GET", "/{index}", "es.proxy"⟩], none⟩] =
      Outcome.fatal ⟨"permissions", "no backing store"⟩
        { router := [⟨"GET", "/_health", "auth.health"⟩],
          loaded :=
            [⟨"auth", [⟨"GET", "/_health", "auth.health"⟩], none⟩,
              ⟨"permissions", [⟨"GET", "/_permission", "permissions.get"⟩],
                some "no backing store"⟩] } :=
  (mount_fail_fast
    [⟨"auth", [⟨"GET", "/_health", "auth.health"⟩], none⟩,
      ⟨"users", [⟨"GET", "/_user", "users.get"⟩], none⟩,
      ⟨"permissions", [⟨"GET", "/_permission", "permissions.get"⟩], some "no backing store"⟩,
      ⟨"es", [⟨"GET", "/{index}", "es.proxy"⟩], none⟩]
    [⟨"auth", [⟨"GET", "/_health", "auth.health"⟩], none⟩]
    [⟨"users", [⟨"GET", "/_user", "users.get"⟩], none⟩,
      ⟨"es", [⟨"GET", "/{index}", "es.proxy"⟩], none⟩]
    ⟨"permissions", [⟨"GET", "/_permission", "permissions.get"⟩], some "no backing store"⟩
    ⟨"permissions", "no backing store"⟩
    (by decide)
    (by intro q hq router; rw [List.mem_singleton.mp hq]; rfl)
    (by decide)).1

/-- C5: when every mount step succeeds the mount loop is order-preserving. The
run reaches the serve step after applying `LoadPlugin` to the sorted plugins in
order, and the routes on the router are the concatenation, in sorted plugin
order, of the plugins' declared route lists: whenever `p` comes before `q` in
the sorted list, the routes of `p`, in their declared order, come before those of
`q`, in theirs. -/
theorem mount_order_preserving (registered : List Plugin)
    (hok : ∀ p ∈ registered, ∀ router, (LoadPlugin router p).2 = none) :
    main registered =
      Outcome.serve
        { router := ((By.Sort criteria registered).map Plugin.Routes).flatten,
          loaded := By.Sort criteria registered } ∧
    ∀ l₁ l₂ l₃ p q, By.Sort criteria registered = l₁ ++ p :: l₂ ++ q :: l₃ →
      ((By.Sort criteria registered).map Plugin.Routes).flatten =
        (l₁.map Plugin.Routes).flatten ++ p.Routes ++ (l₂.map Plugin.Routes).flatten ++
          q.Routes ++ (l₃.map Plugin.Routes).flatten := by
  constructor
  · have hall : ∀ p ∈ By.Sort criteria registered, p.InitFunc = none := by
      intro p hp
      have hmem := (sort_perm criteria registered).mem_iff.mp hp
      exact (LoadPlugin_snd_eq_none_iff [] p).mp (hok p hmem [])
    unfold main
    simp only
    rw [mountLoop_of_all_ok _ _ hall]
    simp
  · intro l₁ l₂ l₃ p q h
    rw [h]
    simp

/-- Witness of C5: the four plugins of the spec's scenario, one route each. -/
theorem mount_order_preserving_witness :
    main
        [⟨"auth", [⟨"GET", "/_health", "auth.health"⟩], none⟩,
          ⟨"users", [⟨"GET", "/_user", "users.get"⟩], none⟩,
          ⟨"permissions", [⟨"GET", "/_permission", "permissions.get"⟩], none⟩,
          ⟨"es", [⟨"GET", "/{index}", "es.proxy"⟩], none⟩] =
      Outcome.serve
        { router :=
            ((By.Sort criteria
              [⟨"auth", [⟨"GET", "/_health", "auth.health"⟩], none⟩,
                ⟨"users", [⟨"GET", "/_user", "users.get"⟩], none⟩,
                ⟨"permissions", [⟨"GET", "/_permission", "permissions.get"⟩], none⟩,
                ⟨"es", [⟨"GET", "/{index}", "es.proxy"⟩], none⟩]).map Plugin.Routes).flatten,
          loaded :=
            By.Sort criteria
              [⟨"auth", [⟨"GET", "/_health", "auth.health"⟩], none⟩,
                ⟨"users", [⟨"GET", "/_user", "users.get"⟩], none⟩,
                ⟨"permissions", [⟨"GET", "/_permission", "permissions.get"⟩], none⟩,
                ⟨"es", [⟨"GET", "/{index}", "es.proxy"⟩], none⟩] } :=
  (mount_order_preserving
    [⟨"auth", [⟨"GET", "/_health", "auth.health"⟩], none⟩,
      ⟨"users", [⟨"GET", "/_user", "users.get"⟩], none⟩,
      ⟨"permissions", [⟨"GET", "/_permission", "permissions.get"⟩], none⟩,
      ⟨"es", [⟨"GET", "/{index}", "es.proxy"⟩], none⟩]
    (by
      intro p hp router
      simp only [List.mem_cons, List.mem_singleton, List.not_mem_nil, or_false] at hp
      rcases hp with h | h | h | h <;> rw [h] <;> rfl)).1

/-- C6: after sort and mount, every route of every plugin not named "es" is
registered before every route of a plugin named "es" (whether or not the names
are pairwise distinct); hence, on a router where the first registered matching
pattern wins, a request matched by a route of a plugin not named "es" is
dispatched to a route declared by such a plugin, the same route as if no "es"
route had been registered at all. -/
theorem es_routes_registered_last {Request : Type} (matchRoute : Route → Request → Bool)
    (registered : List Plugin) (st : RunState) (hserve : main registered = Outcome.serve st) :
    st.router =
      (((By.Sort criteria registered).filter
          (fun p => decide (p.Name ≠ "es"))).map Plugin.Routes).flatten ++
        (((By.Sort criteria registered).filter
          (fun p => decide (p.Name = "es"))).map Plugin.Routes).flatten ∧
    ∀ req : Request,
      (∃ p ∈ registered, p.Name ≠ "es" ∧ ∃ r ∈ p.Routes, matchRoute r req = true) →
      Router.dispatch matchRoute st.router req =
        Router.dispatch matchRoute
          (((By.Sort criteria registered).filter
            (fun p => decide (p.Name ≠ "es"))).map Plugin.Routes).flatten req ∧
      ∃ p ∈ registered, p.Name ≠ "es" ∧ ∃ r ∈ p.Routes, matchRoute r req = true ∧
        Router.dispatch matchRoute st.router req = some r := by
  have hloop : (mountLoop (By.Sort criteria registered) { router := [], loaded := [] }).2 = none := by
    unfold main at hserve
    simp only at hserve
    split at hserve
    · exact Outcome.noConfusion hserve
    · rename_i st' heq
      rw [heq]
  have hall := all_ok_of_mountLoop _ _ hloop
  have hrouter : st.router = ((By.Sort criteria registered).map Plugin.Routes).flatten := by
    unfold main at hserve
    simp only at hserve
    rw [mountLoop_of_all_ok _ _ hall] at hserve
    simp only [List.nil_append, Outcome.serve.injEq] at hserve
    rw [← hserve]
  have hsplit := sorted_eq_filter_append _ (sort_sorted registered)
  have hrouter' : st.router =
      (((By.Sort criteria registered).filter
          (fun p => decide (p.Name ≠ "es"))).map Plugin.Routes).flatten ++
        (((By.Sort criteria registered).filter
          (fun p => decide (p.Name = "es"))).map Plugin.Routes).flatten := by
    rw [hrouter]
    conv_lhs => rw [hsplit]
    rw [List.map_append, List.flatten_append]
  refine ⟨hrouter', ?_⟩
  intro req ⟨p, hp, hpne, r, hr, hmatch⟩
  have hmem : r ∈ (((By.Sort criteria registered).filter
      (fun p => decide (p.Name ≠ "es"))).map Plugin.Routes).flatten := by
    rw [List.mem_flatten]
    refine ⟨p.Routes, ?_, hr⟩
    rw [List.mem_map]
    refine ⟨p, ?_, rfl⟩
    rw [List.mem_filter]
    exact ⟨(sort_perm criteria registered).mem_iff.mpr hp, by simpa using hpne⟩
  have hfind : ∃ r', List.find? (fun r => matchRoute r req)
      (((By.Sort criteria registered).filter
        (fun p => decide (p.Name ≠ "es"))).map Plugin.Routes).flatten = some r' := by
    cases hf : List.find? (fun r => matchRoute r req)
      (((By.Sort criteria registered).filter
        (fun p => decide (p.Name ≠ "es"))).map Plugin.Routes).flatten with
    | some r' => exact ⟨r', rfl⟩
    | none =>
      rw [List.find?_eq_none] at hf
      exact absurd hmatch (hf r hmem)
  obtain ⟨r', hr'⟩ := hfind
  have hdispatch : Router.dispatch matchRoute st.router req = some r' := by
    unfold Router.dispatch
    rw [hrouter', List.find?_append, hr']
    rfl
  refine ⟨?_, ?_⟩
  · rw [hdispatch]
    unfold Router.dispatch
    rw [hr']
  · have hr'mem := List.mem_of_find?_eq_some hr'
    have hr'match := List.find?_some hr'
    rw [List.mem_flatten] at hr'mem
    obtain ⟨routes, hroutes, hr'in⟩ := hr'mem
    rw [List.mem_map] at hroutes
    obtain ⟨p', hp', hp'routes⟩ := hroutes
    rw [List.mem_filter] at hp'
    refine ⟨p', (sort_perm criteria registered).mem_iff.mp hp'.1, by simpa using hp'.2, r', ?_,
      hr'match, hdispatch⟩
    rw [hp'routes]
    exact hr'in

/-- Witness of C6: in the spec's scenario `GET /_health`, declared by "auth", is
handled by the handler of "auth" although the pattern `GET /{index}` of "es"
matches the request too. -/
theorem es_routes_registered_last_witness :
    patternMatches ⟨"GET", "/{index}", "es.proxy"⟩ ⟨"GET", "/_health"⟩ = true ∧
    Router.dispatch patternMatches
        [⟨"GET", "/_health", "auth.health"⟩, ⟨"GET", "/_permission", "permissions.get"⟩,
          ⟨"GET", "/_user", "users.get"⟩, ⟨"GET", "/{index}", "es.proxy"⟩]
        ⟨"GET", "/_health"⟩ = some ⟨"GET", "/_health", "auth.health"⟩ ∧
    Router.dispatch patternMatches
        [⟨"GET", "/_health", "auth.health"⟩, ⟨"GET", "/_permission", "permissions.get"⟩,
          ⟨"GET", "/_user", "users.get"⟩, ⟨"GET", "/{index}", "es.proxy"⟩]
        ⟨"GET", "/_health"⟩ =
      Router.dispatch patternMatches
        (((By.Sort criteria
            [⟨"auth", [⟨"GET", "/_health", "auth.health"⟩], none⟩,
              ⟨"users", [⟨"GET", "/_user", "users.get"⟩], none⟩,
              ⟨"permissions", [⟨"GET", "/_permission", "permissions.get"⟩], none⟩,
              ⟨"es", [⟨"GET", "/{index}", "es.proxy"⟩], none⟩]).filter
          (fun p => decide (p.Name ≠ "es"))).map Plugin.Routes).flatten
        ⟨"GET", "/_health"⟩ :=
  ⟨by decide, by decide,
    ((es_routes_registered_last patternMatches
      [⟨"auth", [⟨"GET", "/_health", "auth.health"⟩], none⟩,
        ⟨"users", [⟨"GET", "/_user", "users.get"⟩], none⟩,
        ⟨"permissions", [⟨"GET", "/_permission", "permissions.get"⟩], none⟩,
        ⟨"es", [⟨"GET", "/{index}", "es.proxy"⟩], none⟩]
      { router :=
          [⟨"GET", "/_health", "auth.health"⟩, ⟨"GET", "/_permission", "permissions.get"⟩,
            ⟨"GET", "/_user", "users.get"⟩, ⟨"GET", "/{index}", "es.proxy"⟩],
        loaded :=
          [⟨"auth", [⟨"GET", "/_health", "auth.health"⟩], none⟩,
            ⟨"permissions", [⟨"GET", "/_permission", "permissions.get"⟩], none⟩,
            ⟨"users", [⟨"GET", "/_user", "users.get"⟩], none⟩,
            ⟨"es", [⟨"GET", "/{index}", "es.proxy"⟩], none⟩] }
      (by decide)).2 ⟨"GET", "/_health"⟩
      ⟨⟨"auth", [⟨"GET", "/_health", "auth.health"⟩], none⟩, by decide, by decide,
        ⟨"GET", "/_health", "auth.health"⟩, by decide, by decide⟩).1⟩


/-- C7 (the code departs from it): `ParseEnvFile` accepts the line `A<tab>B=1`
and returns a map whose key `A<tab>B` contains a tab, a white-space character:
the check of line 147 looks for the space character only. -/
theorem ParseEnvFile_accepts_tab_in_key :
    ParseEnvFile "A\tB=1\n".toList = (some [("A\tB".toList, "1".toList)], none) ∧
    '\t' ∈ "A\tB".toList ∧ isSpace '\t' = true := by
  decide

/-- C8: on a text whose lines all fit the scanner's buffer, `ParseEnvFile`
returns an error iff some line is malformed (trimmed, it is not empty, does not
start with `#`, and has no `=`, or a space before its first `=`, or nothing
before it); the map returned with the error is nil, and the line number in the
error is the 1-based position of the first malformed line among all the lines,
comments and blank lines included. -/
theorem ParseEnvFile_error_iff (envFile : List Char)
    (hfit : ∀ l ∈ splitLines envFile, byteLen l < MaxScanTokenSize) :
    ((∃ err, (ParseEnvFile envFile).2 = some err) ↔
      ∃ l ∈ (splitLines envFile).map dropCR, malformedLine l = true) ∧
    ∀ err, (ParseEnvFile envFile).2 = some err →
      (ParseEnvFile envFile).1 = none ∧
      ∃ k l, ((splitLines envFile).map dropCR)[k]? = some l ∧ malformedLine l = true ∧
        (∀ t ∈ ((splitLines envFile).map dropCR).take k, malformedLine t = false) ∧
        err.lineNumber? = some (k + 1) := by
  have hscan := scanTokens_of_fit (splitLines envFile) hfit
  rcases first_malformed_split ((splitLines envFile).map dropCR) with
    hnone | ⟨good, bad, rest, heq, hgood, hbad⟩
  · obtain ⟨m', hm'⟩ := parseLoop_of_none_malformed _ 0 [] hnone
    have hres : ParseEnvFile envFile = (some m', none) := by
      unfold ParseEnvFile
      simp only [hscan, hm']
      rfl
    rw [hres]
    refine ⟨⟨?_, ?_⟩, ?_⟩
    · rintro ⟨err, herr⟩
      exact absurd herr (by simp)
    · rintro ⟨l, hl, hbad⟩
      rw [hnone l hl] at hbad
      exact absurd hbad (by simp)
    · intro err herr
      exact absurd herr (by simp)
  · obtain ⟨e, he, hnum⟩ := parseLoop_of_first_malformed good bad rest 0 [] hgood hbad
    have hres : ParseEnvFile envFile = (none, some e) := by
      unfold ParseEnvFile
      simp only [hscan, heq, he]
    rw [hres]
    refine ⟨⟨fun _ => ⟨bad, ?_, hbad⟩, fun _ => ⟨e, rfl⟩⟩, ?_⟩
    · rw [heq]
      exact List.mem_append_right _ (List.mem_cons_self bad rest)
    · intro err herr
      simp only [Option.some.injEq] at herr
      subst herr
      refine ⟨rfl, good.length, bad, ?_, hbad, ?_, ?_⟩
      · rw [heq, List.getElem?_append_right (le_refl _)]
        simp
      · rw [heq]
        simpa using hgood
      · simpa using hnum

/-- Witness of C8: a comment, a blank line, a good line, then `B = 2` with a
space before its `=`: the error carries line number 4. -/
theorem ParseEnvFile_error_iff_witness :
    ParseEnvFile "# c\n\nA=1\r\n B = 2\nA=3".toList = (none, some (EnvError.keyWhitespace 4)) ∧
    ∃ err, (ParseEnvFile "# c\n\nA=1\r\n B = 2\nA=3".toList).2 = some err :=
  ⟨by decide,
    (ParseEnvFile_error_iff "# c\n\nA=1\r\n B = 2\nA=3".toList (by decide)).1.mpr
      ⟨" B = 2".toList, by decide, by decide⟩⟩

/-- C9: the update document `patchUser` builds has keys among "acl", "email",
"op" and "indices" only; it has "acl" iff `u.ACL` is not nil (an empty list
counts), "email" iff `u.Email` is not empty, "op" iff `u.Op` is not `op.Noop`,
and "indices" iff `u.Indices` is not nil, each with the value `u` has there. -/
theorem patchUser_doc_fields {A O I E : Type} [DecidableEq O] (Noop : O)
    (Do : UpdateRequest A O I → Option E) (userId : String) (u : User A O I) :
    (∀ k ∈ (patchUser Noop Do userId u).1.Doc.keys, k ∈ ["acl", "email", "op", "indices"]) ∧
    (("acl" ∈ (patchUser Noop Do userId u).1.Doc.keys ↔ u.ACL ≠ none) ∧
      (patchUser Noop Do userId u).1.Doc.get "acl" = u.ACL.map FieldValue.acl) ∧
    (("email" ∈ (patchUser Noop Do userId u).1.Doc.keys ↔ u.Email ≠ "") ∧
      (patchUser Noop Do userId u).1.Doc.get "email" =
        if u.Email = "" then none else some (FieldValue.email u.Email)) ∧
    (("op" ∈ (patchUser Noop Do userId u).1.Doc.keys ↔ u.Op ≠ Noop) ∧
      (patchUser Noop Do userId u).1.Doc.get "op" =
        if u.Op = Noop then none else some (FieldValue.op u.Op)) ∧
    (("indices" ∈ (patchUser Noop Do userId u).1.Doc.keys ↔ u.Indices ≠ none) ∧
      (patchUser Noop Do userId u).1.Doc.get "indices" = u.Indices.map FieldValue.indices) := by
  have hdoc : ∀ r : UpdateRequest A O I,
      (match Do r with
        | some err => (r, (false, some err))
        | none => (r, (true, none)) : UpdateRequest A O I × (Bool × Option E)).1 = r := by
    intro r
    cases Do r <;> rfl
  obtain ⟨uid, acl, email, op, indices⟩ := u
  unfold patchUser
  simp only [hdoc]
  cases acl <;> cases indices <;> by_cases he : email = "" <;> by_cases ho : op = Noop <;>
    simp [GoMap.set, GoMap.get, GoMap.keys, he, ho]


/-- Witness of C9: a user with an empty, non-nil ACL, an e-mail address, the
no-op operation (here `0`) and nil indices: the document has "acl" and "email"
and nothing else. -/
theorem patchUser_doc_fields_witness :
    (patchUser 0 (fun _ => (none : Option String)) "u1"
        ({ UserId := "u1", ACL := some [], Email := "a@b.c", Op := 0, Indices := none } :
          User Nat Nat String)).1.Doc.get "acl" = some (FieldValue.acl []) ∧
    (patchUser 0 (fun _ => (none : Option String)) "u1"
        ({ UserId := "u1", ACL := some [], Email := "a@b.c", Op := 0, Indices := none } :
          User Nat Nat String)).1.Doc.keys = ["email", "acl"] :=
  ⟨(patchUser_doc_fields 0 (fun _ => (none : Option String)) "u1"
      ({ UserId := "u1", ACL := some [], Email := "a@b.c", Op := 0, Indices := none } :
        User Nat Nat String)).2.1.2,
    by decide⟩

end Arc
